import Mathlib

/-!
Verification of the Quick messenger core against its specification.

The definitions below are a shallow embedding of the TypeScript sources:

* `src/lib/nostr.ts` (in the repo snapshot this is the second document inside
  `src/src/lib/call-manager.ts`): the `NostrClient` class — relay sockets,
  the global seen-event set, encrypted-payload dispatch, attachment chunking
  and reconnect backoff.
* `src/lib/chunkStore.ts` (second document inside `src/src/lib/webrtc.ts`):
  `ensureTransfer`, `storeChunk`, `isTransferComplete`.
* `src/lib/webrtc.ts` (first document): the `WebRTCManager` call state
  machine.

Environment effects (WebSocket I/O, encryption/signing, media capture,
timers, IndexedDB persistence) are modelled as explicit inputs, outputs and
state; machine semantics follow the JavaScript source, including the control
flow of try/catch.
-/

namespace Quick

/-! ## Relay events and the NostrClient dispatch layer
Embedding of `NostrClient` from `src/lib/nostr.ts`. -/

/-- Relay wire envelope, the `NostrEvent` interface of the source. -/
structure NostrEvent where
  id : String
  pubkey : String
  created_at : Nat
  kind : Nat
  tags : List (List String)
  content : String
  sig : String
deriving DecidableEq, Repr

/-- WebSocket readyState values; the source tests `readyState === WebSocket.OPEN`. -/
inductive SocketState where
  | connecting
  | opened
  | closing
  | closed
deriving DecidableEq, Repr

/-- State of the single `NostrClient` instance: the global seen-event id set
(`seenEvents`), the socket per relay url, and the per-url reconnect-attempt
counters. Sets and maps are modelled as lists. -/
structure ClientState where
  seenEvents : List String
  sockets : List (String × SocketState)
  reconnectAttempts : List (String × Nat)
deriving DecidableEq, Repr

/-- Which of the four kind handlers `handleRelayMessage` dispatches to. -/
inductive Dispatch where
  | encryptedDM
  | profileEvent
  | channelEvent
  | channelMessageEvent
deriving DecidableEq, Repr

/-- Kind dispatch chain of `handleRelayMessage` (call-manager.ts:585-588):
kind 4, else kind 0, else kind 40, else kind 42, else nothing. -/
def dispatchFor (k : Nat) : Option Dispatch :=
  if k = 4 then some .encryptedDM
  else if k = 0 then some .profileEvent
  else if k = 40 then some .channelEvent
  else if k = 42 then some .channelMessageEvent
  else none

/-- Kinds that have a handler in the dispatch chain. -/
def handledKind (k : Nat) : Bool :=
  k = 4 || k = 0 || k = 40 || k = 42

/-- Embedding of `NostrClient.handleRelayMessage` (call-manager.ts:579-590)
for an `EVENT` message carrying event `ev`: if the id is in `seenEvents` the
delivery is dropped with no state change; otherwise the id is added and the
event is dispatched by kind. Returns the handler dispatched to, if any. -/
def handleRelayMessage (st : ClientState) (ev : NostrEvent) :
    ClientState × Option Dispatch :=
  if st.seenEvents.contains ev.id then (st, none)
  else ({ st with seenEvents := ev.id :: st.seenEvents }, dispatchFor ev.kind)

/-- Process a list of relay deliveries in order, recording for each delivery
the event id and the handler dispatched to (if any). -/
def processDeliveries (st : ClientState) :
    List NostrEvent → ClientState × List (String × Option Dispatch)
  | [] => (st, [])
  | ev :: rest =>
      let out := handleRelayMessage st ev
      let outs := processDeliveries out.1 rest
      (outs.1, (ev.id, out.2) :: outs.2)

/-- Number of deliveries of events with id `i` that were dispatched to a handler. -/
def dispatchCount (outs : List (String × Option Dispatch)) (i : String) : Nat :=
  (outs.filter (fun p => p.1 == i && p.2.isSome)).length

/-! ## Outbound sends
Embedding of `NostrClient.sendEncryptedPayload` (call-manager.ts:755-767) and
`NostrClient.sendChannelMessage` (call-manager.ts:919-947). Encryption and
signing are environment effects; the content-derived id of the signed event
is a parameter. -/

/-- Observable actions of a send operation, in program order. -/
inductive SendAction where
  | addSeen (id : String)
  | wsSend (url : String) (id : String)
deriving DecidableEq, Repr

/-- Socket entries currently in the OPEN ready state. -/
def openSockets (st : ClientState) : List (String × SocketState) :=
  st.sockets.filter (fun s => s.2 == SocketState.opened)

/-- Result of a send operation. -/
structure SendOutcome where
  state : ClientState
  result : Except String String
  actions : List SendAction
deriving Repr

/-- Embedding of `sendEncryptedPayload`: the signed event id is added to
`seenEvents` (line 760), then the open sockets are collected; if none is open
the call throws and nothing is sent (line 764), otherwise the event is sent
to every open socket (line 765) and the event id is returned. -/
def sendEncryptedPayload (st : ClientState) (eventId : String) : SendOutcome :=
  let st1 := { st with seenEvents := eventId :: st.seenEvents }
  let opens := openSockets st1
  if opens.isEmpty then
    ⟨st1, .error "Нет подключённых релеев", [.addSeen eventId]⟩
  else
    ⟨st1, .ok eventId,
      .addSeen eventId :: opens.map (fun s => .wsSend s.1 eventId)⟩

/-- Embedding of `sendChannelMessage`: the signed kind-42 event is sent to
every open socket as the socket map is walked; if no socket was open the call
throws `No connected relays` having sent nothing. It does not touch
`seenEvents`. -/
def sendChannelMessage (st : ClientState) (eventId : String) :
    Except String String × List SendAction :=
  let opens := openSockets st
  if opens.isEmpty then (.error "No connected relays", [])
  else (.ok eventId, opens.map (fun s => .wsSend s.1 eventId))

/-! ## Reconnect backoff
Embedding of `NostrClient.scheduleReconnect` (call-manager.ts:570-577) and the
attempt-counter reset in `ws.onopen` (call-manager.ts:563). -/

/-- Update-or-insert into an association list, keeping the key unique. -/
def setKey (m : List (String × Nat)) (k : String) (v : Nat) : List (String × Nat) :=
  match m with
  | [] => [(k, v)]
  | (k0, v0) :: rest =>
      if k0 == k then (k, v) :: rest else (k0, v0) :: setKey rest k v

/-- Current attempt counter for a url: `this.reconnectAttempts.get(url) || 0`. -/
def getAttempts (st : ClientState) (url : String) : Nat :=
  (st.reconnectAttempts.lookup url).getD 0

/-- Embedding of `scheduleReconnect`: reads the attempt counter `a`, computes
the delay `Math.min(3000 * Math.pow(2, a), 60000)`, stores `a + 1` back and
arms a timer with that delay. Returns the new state and the delay. -/
def scheduleReconnect (st : ClientState) (url : String) : ClientState × Nat :=
  let a := getAttempts st url
  let d := min (3000 * 2 ^ a) 60000
  ({ st with reconnectAttempts := setKey st.reconnectAttempts url (a + 1) }, d)

/-- Embedding of the `ws.onopen` counter reset:
`this.reconnectAttempts.set(url, 0)`. -/
def relayOpened (st : ClientState) (url : String) : ClientState :=
  { st with reconnectAttempts := setKey st.reconnectAttempts url 0 }

/-- Delays produced by `n` consecutive `scheduleReconnect` calls for one url. -/
def consecutiveDelays (st : ClientState) (url : String) :
    Nat → ClientState × List Nat
  | 0 => (st, [])
  | n + 1 =>
      let out := scheduleReconnect st url
      let outs := consecutiveDelays out.1 url n
      (outs.1, out.2 :: outs.2)

/-- The backoff formula of the specification: `min(3000 * 2 ^ a, 60000)`. -/
def backoffDelay (a : Nat) : Nat :=
  min (3000 * 2 ^ a) 60000

/-- A client state with nothing seen, no sockets, no reconnect counters. -/
def initialClientState : ClientState := ⟨[], [], []⟩

/-! ## The transfer store
Embedding of `src/lib/chunkStore.ts`: an IndexedDB database with a
`transfers` object store keyed by `transferId` and a `chunks` object store
keyed by `[transferId, index]`, modelled as in-memory lists. -/

/-- Row of the `transfers` object store (`TransferRow` in the source).
`text` is optional because the fallback row written by `storeChunk` omits it. -/
structure TransferRow where
  transferId : String
  fileName : String
  mimeType : String
  fileType : String
  size : Nat
  totalChunks : Nat
  receivedChunks : Nat
  text : Option String
deriving DecidableEq, Repr

/-- Argument of `ensureTransfer`: a `TransferRow` without a required
`receivedChunks` field (`Omit<TransferRow, 'receivedChunks'> &
{ receivedChunks?: number }`). -/
structure TransferMeta where
  transferId : String
  fileName : String
  mimeType : String
  fileType : String
  size : Nat
  totalChunks : Nat
  text : Option String
  receivedChunks : Option Nat := none
deriving DecidableEq, Repr

/-- The two object stores of the `nostr-p2p-files` database. A chunk row is
its key `(transferId, index)` together with its base64 `data`. -/
structure ChunkStore where
  transfers : List TransferRow
  chunks : List ((String × Nat) × String)
deriving DecidableEq, Repr

/-- The empty database. -/
def emptyStore : ChunkStore := ⟨[], []⟩

/-- IndexedDB `put` on a keyed store: replace the row with the same key, or
insert the row if the key is absent. -/
def putRow (rows : List TransferRow) (row : TransferRow) : List TransferRow :=
  match rows with
  | [] => [row]
  | r :: rest =>
      if r.transferId == row.transferId then row :: rest else r :: putRow rest row

/-- Lookup in the `transfers` store: `db.get('transfers', transferId)`. -/
def getTransfer (s : ChunkStore) (tid : String) : Option TransferRow :=
  s.transfers.find? (fun r => r.transferId == tid)

/-- `put` into the `transfers` store. -/
def putTransfer (s : ChunkStore) (row : TransferRow) : ChunkStore :=
  { s with transfers := putRow s.transfers row }

/-- Membership test for the `chunks` store key `[transferId, index]`. -/
def hasChunk (s : ChunkStore) (tid : String) (i : Nat) : Bool :=
  s.chunks.any (fun c => c.1.1 == tid && c.1.2 == i)

/-- Embedding of `ensureTransfer` (chunkStore.ts, webrtc.ts lines 430-439):
upsert the transfer row, with
`receivedChunks := existing?.receivedChunks ?? meta.receivedChunks ?? 0`. -/
def ensureTransfer (s : ChunkStore) (meta : TransferMeta) : ChunkStore :=
  let existing := getTransfer s meta.transferId
  let row : TransferRow :=
    { transferId := meta.transferId
      fileName := meta.fileName
      mimeType := meta.mimeType
      fileType := meta.fileType
      size := meta.size
      totalChunks := meta.totalChunks
      receivedChunks :=
        match existing with
        | some e => e.receivedChunks
        | none => meta.receivedChunks.getD 0
      text := meta.text }
  putTransfer s row

/-- Embedding of `storeChunk` (webrtc.ts lines 441-465): if the
`(transferId, index)` key already exists nothing happens; otherwise the chunk
row is written and the transfer row is updated with
`receivedChunks := Math.min(totalChunks, receivedChunks + 1)`, or created
with `receivedChunks := 1` if the metadata had not arrived yet. -/
def storeChunk (s : ChunkStore) (tid : String) (i : Nat) (totalChunks : Nat)
    (data : String) : ChunkStore :=
  if hasChunk s tid i then s
  else
    let s1 := { s with chunks := ((tid, i), data) :: s.chunks }
    match getTransfer s1 tid with
    | some t =>
        putTransfer s1 { t with receivedChunks := min t.totalChunks (t.receivedChunks + 1) }
    | none =>
        putTransfer s1
          { transferId := tid
            fileName := "file"
            mimeType := "application/octet-stream"
            fileType := "file"
            size := 0
            totalChunks := totalChunks
            receivedChunks := 1
            text := none }

/-- Embedding of `isTransferComplete` (webrtc.ts lines 472-476):
`transfer.totalChunks > 0 && transfer.receivedChunks >= transfer.totalChunks`. -/
def isTransferComplete (s : ChunkStore) (tid : String) : Bool :=
  match getTransfer s tid with
  | none => false
  | some t => decide (0 < t.totalChunks) && decide (t.totalChunks ≤ t.receivedChunks)

/-- The `receivedChunks` field of a transfer row, 0 when the row is absent. -/
def receivedOf (s : ChunkStore) (t : String) : Nat :=
  match getTransfer s t with
  | some r => r.receivedChunks
  | none => 0

/-- Chunk indices currently stored for one transfer. -/
def chunkKeysOf (s : ChunkStore) (t : String) : List Nat :=
  (s.chunks.filter (fun c => c.1.1 == t)).map (fun c => c.1.2)

/-- One inbound store operation: a `file-meta` upsert (`ensureTransfer`) or a
`file-chunk` store (`storeChunk`). -/
inductive StoreOp where
  | meta (m : TransferMeta)
  | chunk (tid : String) (i : Nat) (totalChunks : Nat) (data : String)
deriving DecidableEq, Repr

/-- Apply one inbound operation to the store. -/
def applyOp (s : ChunkStore) : StoreOp → ChunkStore
  | .meta m => ensureTransfer s m
  | .chunk tid i T d => storeChunk s tid i T d

/-- Apply a delivery sequence of inbound operations. -/
def applyOps (s : ChunkStore) (ops : List StoreOp) : ChunkStore :=
  ops.foldl applyOp s

/-- Well-formedness of an operation with respect to transfer `t` with
`totalChunks = T`: operations addressed to `t` carry that total, chunk
indices are chunk indices of the transfer (below `T`), and the callers of
`ensureTransfer` never pass a `receivedChunks` override (both call sites in
`nostr.ts` omit it). Operations addressed to other transfers are arbitrary. -/
def opWF (t : String) (T : Nat) : StoreOp → Bool
  | .meta m => !(m.transferId == t) || (m.totalChunks == T && m.receivedChunks.isNone)
  | .chunk tid _i T2 _d => !(tid == t) || (T2 == T && decide (_i < T))

/-- Internal invariant of the store for transfer `t` with total `T`: stored
chunk indices are distinct chunk indices of the transfer, and the transfer
row, when present, carries total `T` and counts exactly the stored chunks. -/
def StoreInv (t : String) (T : Nat) (s : ChunkStore) : Prop :=
  (chunkKeysOf s t).Nodup ∧
  (∀ i ∈ chunkKeysOf s t, i < T) ∧
  (∀ r, getTransfer s t = some r →
      r.totalChunks = T ∧ r.receivedChunks = (chunkKeysOf s t).length) ∧
  (getTransfer s t = none → chunkKeysOf s t = [])

/-! ## Outbound attachments
Embedding of `NostrClient.sendAttachment` (call-manager.ts:788-896), chunked
file path: one `file-meta` envelope, then the file split into
`CHUNK_SIZE`-byte chunks sent in index order. -/

/-- `private static CHUNK_SIZE = 262144` (256 KiB). -/
def CHUNK_SIZE : Nat := 262144

/-- `Math.ceil(fileSize / CHUNK_SIZE)` on naturals. -/
def totalChunksFor (fileSize : Nat) : Nat :=
  (fileSize + CHUNK_SIZE - 1) / CHUNK_SIZE

/-- Number of file bytes in chunk `i`: the slice
`[i * CHUNK_SIZE, min((i + 1) * CHUNK_SIZE, fileSize))`. -/
def chunkByteLen (fileSize i : Nat) : Nat :=
  min ((i + 1) * CHUNK_SIZE) fileSize - i * CHUNK_SIZE

/-- Encrypted envelopes produced by the chunked path of `sendAttachment`,
keeping the fields the scenario observes. -/
inductive Envelope where
  | fileMeta (transferId : String) (totalChunks : Nat) (size : Nat)
  | fileChunk (transferId : String) (chunkIndex : Nat) (totalChunks : Nat)
      (byteLen : Nat)
deriving DecidableEq, Repr

/-- Envelope sequence of the chunked path of `sendAttachment`: the metadata
envelope is awaited first (line 821), then the chunks are built and sent in
index order (lines 833-878). -/
def sendAttachmentEnvelopes (tid : String) (fileSize : Nat) : List Envelope :=
  Envelope.fileMeta tid (totalChunksFor fileSize) fileSize ::
    (List.range (totalChunksFor fileSize)).map
      (fun i => Envelope.fileChunk tid i (totalChunksFor fileSize) (chunkByteLen fileSize i))

/-! ## Decrypted payload dispatch
Embedding of the payload dispatch of `NostrClient.handleEncryptedDM`
(call-manager.ts:600-642) and of `NostrClient.handleFileChunk`
(call-manager.ts:645-685). The event has already passed the recipient-tag
check and been decrypted. -/

/-- Parsed JSON payload: the fields the dispatch reads, each optional. -/
structure RawPayload where
  msgType : Option String := none
  text : Option String := none
  sdp : Option String := none
  candidate : Option String := none
  callType : Option String := none
  transferId : Option String := none
  chunkIndex : Option Nat := none
  totalChunks : Option Nat := none
  data : Option String := none
  fileName : Option String := none
  mimeType : Option String := none
  size : Option Nat := none
  fileType : Option String := none
deriving DecidableEq, Repr

/-- Observable outputs of the encrypted-DM dispatch: a `DirectMessage`
emitted to the message callbacks, or a call signal forwarded to the signal
callbacks. -/
inductive DMOutput where
  | message (id source dest content msgType : String)
  | signal (source sigType : String)
deriving DecidableEq, Repr

/-- The call-signal message types forwarded to the signal callbacks
(call-manager.ts:616). -/
def signalKinds : List String :=
  ["webrtc-offer", "webrtc-answer", "webrtc-ice", "call-request",
   "call-accept", "call-reject", "call-end"]

/-- Embedding of `NostrClient.handleFileChunk`: after the type guards, upsert
the transfer from the chunk payload, store the chunk, and emit the assembled
`DirectMessage` exactly when the transfer is complete. -/
def handleFileChunk (s : ChunkStore) (eventId source dest : String)
    (p : RawPayload) : ChunkStore × List DMOutput :=
  match p.transferId, p.chunkIndex, p.totalChunks, p.data with
  | some tid, some ci, some tc, some d =>
      if tid == "" then (s, [])
      else
        let ft := if p.fileType == some "image" then "image" else "file"
        let s1 := ensureTransfer s
          { transferId := tid
            fileName := p.fileName.getD "file"
            mimeType := p.mimeType.getD "application/octet-stream"
            fileType := ft
            size := p.size.getD 0
            totalChunks := tc
            text := some (p.text.getD "") }
        let s2 := storeChunk s1 tid ci tc d
        if isTransferComplete s2 tid then
          (s2, [.message (eventId ++ "-assembled-" ++ tid) source dest
                  (p.text.getD "") ft])
        else (s2, [])
  | _, _, _, _ => (s, [])

/-- Dispatch of a parsed payload with a truthy `_nostr_msg_type`, inside the
inner `try` of `handleEncryptedDM`. `Except.error` models a thrown JavaScript
exception; `Except.ok none` models reaching the end of the `if` chain without
a `return`. In the `file-meta` branch (call-manager.ts:621-634) the shorthand
property `fileType` at line 628 refers to an identifier that is not bound in
that scope, so its evaluation throws a `ReferenceError` before
`ensureTransfer` is called: the branch is embedded as `Except.error`. -/
def dispatchPayload (s : ChunkStore) (eventId source dest : String)
    (p : RawPayload) (mt : String) : Except Unit (Option (ChunkStore × List DMOutput)) :=
  if mt == "text" then
    .ok (some (s, [.message eventId source dest (p.text.getD "") "text"]))
  else if signalKinds.contains mt then
    .ok (some (s, [.signal source mt]))
  else if mt == "file-chunk" then
    .ok (some (handleFileChunk s eventId source dest p))
  else if mt == "file-meta" then
    if p.transferId.getD "" == "" then .ok (some (s, []))
    else .error ()
  else if mt == "image" || mt == "file" then
    .ok (some (s, [.message eventId source dest (p.text.getD "") mt]))
  else
    .ok none

/-- Embedding of the payload handling of `handleEncryptedDM` after
decryption: `parsed = none` models a `JSON.parse` failure, a thrown exception
inside the inner `try` is swallowed by its `catch`, and every path that does
not `return` falls through to line 641, which emits the decrypted content as
a plain-text `DirectMessage`. -/
def handleDecryptedPayload (s : ChunkStore) (eventId source dest dec : String)
    (parsed : Option RawPayload) : ChunkStore × List DMOutput :=
  let fallback := (s, [DMOutput.message eventId source dest dec "text"])
  match parsed with
  | none => fallback
  | some p =>
      match p.msgType with
      | none => fallback
      | some mt =>
          match dispatchPayload s eventId source dest p mt with
          | .error _ => fallback
          | .ok none => fallback
          | .ok (some r) => r

/-- Chunk payload for the 600 KiB scenario: transfer `t600` with 3 chunks,
chunk index `i`. -/
def mkChunk600 (i : Nat) : RawPayload :=
  { msgType := some "file-chunk"
    transferId := some "t600"
    chunkIndex := some i
    totalChunks := some 3
    data := some "AAAA"
    fileName := some "movie.bin"
    mimeType := some "application/octet-stream"
    size := some 614400
    text := some ""
    fileType := some "file" }

/-- Receive a sequence of `file-chunk` payloads; record for each one whether
the assembled `DirectMessage` was emitted at that step. -/
def processChunkArrivals (s : ChunkStore) : List RawPayload → ChunkStore × List Bool
  | [] => (s, [])
  | p :: rest =>
      let out := handleFileChunk s "ev" "alice" "bob" p
      let outs := processChunkArrivals out.1 rest
      (outs.1, (!out.2.isEmpty) :: outs.2)

/-- Store state after the scenario metadata envelope has been handled: the
`file-meta` path was meant to call `ensureTransfer` with the announced
fields; the store starts from this state when chunks arrive after metadata. -/
def store600AfterMeta : ChunkStore :=
  ensureTransfer emptyStore
    { transferId := "t600"
      fileName := "movie.bin"
      mimeType := "application/octet-stream"
      fileType := "file"
      size := 614400
      totalChunks := 3
      text := some "" }

/-! ## The call state machine
Embedding of `WebRTCManager` from `src/lib/webrtc.ts`. Media capture results
are inputs; sent signals and state-change notifications are collected as
effects. Ringtone, timers and the stream callbacks do not influence the
modelled fields and are not modelled. ICE candidates are identified by
naturals. -/

/-- The `CallState` type of the source. -/
inductive WCallState where
  | idle
  | calling
  | ringing
  | connecting
  | connected
  | ended
deriving DecidableEq, Repr

/-- The `CallType` type of the source. -/
inductive WCallType where
  | audio
  | video
deriving DecidableEq, Repr

/-- Result classes of `navigator.mediaDevices.getUserMedia`, by the
`DOMException` name tested in `mediaErrorMsg`. -/
inductive MediaError where
  | notAllowed
  | notFound
  | notReadable
  | other (msg : String)
deriving DecidableEq, Repr

/-- Embedding of `WebRTCManager.mediaErrorMsg` (webrtc.ts:238-246). -/
def mediaErrorMsg : MediaError → String
  | .notAllowed => "Доступ к микрофону/камере запрещён. Разрешите в настройках браузера."
  | .notFound => "Микрофон/камера не найдены. Подключите устройство."
  | .notReadable => "Устройство занято другим приложением."
  | .other m => "Ошибка: " ++ m

/-- An `RTCPeerConnection`, keeping what the manager observes of it: whether
the local and remote descriptions have been set, and the candidates passed
to `addIceCandidate` so far, in order. `addIceCandidate` throws an
`InvalidStateError` when no remote description is set; the candidate is then
not added. -/
structure RTCPeer where
  localDescriptionSet : Bool
  remoteDescriptionSet : Bool
  applied : List Nat
deriving DecidableEq, Repr

/-- The mutable fields of the `WebRTCManager` singleton. -/
structure WRTCState where
  pc : Option RTCPeer
  callState : WCallState
  remotePubkey : Option String
  callType : WCallType
  iceCandidateQueue : List Nat
  preStream : Bool
  localStream : Bool
  remoteStream : Bool
deriving DecidableEq, Repr

/-- The manager before any call: everything empty, state `idle`. -/
def initialWRTCState : WRTCState :=
  ⟨none, .idle, none, .audio, [], false, false, false⟩

/-- Observable effects of the manager: a signal sent through
`nostrClient.sendWebRTCSignal`, or a state-change notification with its
optional error reason. -/
inductive WEffect where
  | sendSignal (dest : String) (sigType : String)
  | stateChange (s : WCallState) (error : Option String)
deriving DecidableEq, Repr

/-- Embedding of `WebRTCManager.setState` (webrtc.ts:60-65). -/
def setState (st : WRTCState) (s : WCallState) (err : Option String) :
    WRTCState × List WEffect :=
  ({ st with callState := s }, [.stateChange s err])

/-- Embedding of `WebRTCManager.cleanup` (webrtc.ts:359-372): stop and drop
the streams, close and drop the peer connection, clear the candidate queue
and the remote peer; when not silent, notify state `idle`. -/
def cleanup (st : WRTCState) (silent : Bool) : WRTCState × List WEffect :=
  let st1 := { st with
    preStream := false
    localStream := false
    remoteStream := false
    pc := none
    iceCandidateQueue := []
    remotePubkey := none }
  if silent then (st1, []) else setState st1 .idle none

/-- Embedding of the candidate flush at the end of `startWebRTC`
(webrtc.ts:320-323): each queued candidate is passed to `addIceCandidate`
inside its own try/catch; when no remote description is set every call
throws and the candidate is lost; the queue is cleared either way. -/
def flushQueueAtSetup (st : WRTCState) : WRTCState :=
  match st.pc with
  | none => st
  | some pc =>
      let applied2 :=
        if pc.remoteDescriptionSet then pc.applied ++ st.iceCandidateQueue
        else pc.applied
      { st with pc := some { pc with applied := applied2 }, iceCandidateQueue := [] }

/-- Embedding of `WebRTCManager.startWebRTC` (webrtc.ts:248-328): create the
peer connection, move the pre-captured stream into `localStream`, for the
initiator create and set the local offer and send `webrtc-offer`, then run
the queued-candidate flush. -/
def startWebRTC (st : WRTCState) (isInitiator : Bool) : WRTCState × List WEffect :=
  let pc0 : RTCPeer := ⟨false, false, []⟩
  let st1 := { st with pc := some pc0, preStream := false, localStream := true }
  let st2 :=
    if isInitiator then
      { st1 with pc := some { pc0 with localDescriptionSet := true } }
    else st1
  let effs :=
    if isInitiator then [WEffect.sendSignal (st.remotePubkey.getD "") "webrtc-offer"]
    else []
  (flushQueueAtSetup st2, effs)

/-- Embedding of `WebRTCManager.handleOffer` (webrtc.ts:330-338): with a peer
connection present, set the remote description, create and set the local
answer, and send `webrtc-answer`. The queued candidates are not touched. -/
def handleOffer (st : WRTCState) : WRTCState × List WEffect :=
  match st.pc with
  | none => (st, [])
  | some pc =>
      ({ st with pc := some { pc with remoteDescriptionSet := true, localDescriptionSet := true } },
       [.sendSignal (st.remotePubkey.getD "") "webrtc-answer"])

/-- Embedding of `WebRTCManager.handleAnswer` (webrtc.ts:340-344): with a
peer connection present, set the remote description. The queued candidates
are not touched. -/
def handleAnswer (st : WRTCState) : WRTCState :=
  match st.pc with
  | none => st
  | some pc => { st with pc := some { pc with remoteDescriptionSet := true } }

/-- Embedding of `WebRTCManager.handleIceCandidate` (webrtc.ts:346-349):
queue the candidate when there is no peer connection or no remote
description yet, otherwise add it to the connection. -/
def handleIceCandidate (st : WRTCState) (c : Nat) : WRTCState :=
  match st.pc with
  | none => { st with iceCandidateQueue := st.iceCandidateQueue ++ [c] }
  | some pc =>
      if pc.remoteDescriptionSet then
        { st with pc := some { pc with applied := pc.applied ++ [c] } }
      else { st with iceCandidateQueue := st.iceCandidateQueue ++ [c] }

/-- Embedding of `WebRTCManager.rejectCall` (webrtc.ts:231-236). -/
def rejectCall (st : WRTCState) : WRTCState × List WEffect :=
  match st.remotePubkey with
  | none => (st, [])
  | some peer =>
      if st.callState = .ringing then
        let out := cleanup st false
        (out.1, .sendSignal peer "call-reject" :: out.2)
      else (st, [])

/-- One inbound `WebRTCSignal`, after the `_nostr_msg_type` discriminator. -/
inductive WSignal where
  | callRequest (callType : WCallType)
  | callAccept
  | callReject
  | callEnd
  | offer (sdp : String)
  | answer (sdp : String)
  | ice (c : Nat)
deriving DecidableEq, Repr

/-- Embedding of `WebRTCManager.handleSignal` (webrtc.ts:110-153). A
`call-request` while non-idle is answered with `call-reject` and changes
nothing; all other signals are ignored unless they come from the tracked
remote peer. -/
def handleSignal (st : WRTCState) (source : String) (sig : WSignal) :
    WRTCState × List WEffect :=
  match sig with
  | .callRequest ct =>
      if st.callState ≠ .idle then (st, [.sendSignal source "call-reject"])
      else
        let st1 := { st with remotePubkey := some source, callType := ct }
        setState st1 .ringing none
  | .callAccept =>
      if st.callState = .calling ∧ st.remotePubkey = some source then
        let out1 := setState st .connecting none
        let out2 := startWebRTC out1.1 true
        (out2.1, out1.2 ++ out2.2)
      else (st, [])
  | .callReject =>
      if st.remotePubkey = some source then
        let out1 := cleanup st false
        let out2 := setState out1.1 .idle (some "Звонок отклонён")
        (out2.1, out1.2 ++ out2.2)
      else (st, [])
  | .callEnd =>
      if st.remotePubkey = some source then cleanup st false
      else (st, [])
  | .offer _ =>
      if st.remotePubkey = some source then handleOffer st
      else (st, [])
  | .answer _ =>
      if st.remotePubkey = some source then (handleAnswer st, [])
      else (st, [])
  | .ice c =>
      if st.remotePubkey = some source then (handleIceCandidate st c, [])
      else (st, [])

/-- Embedding of `WebRTCManager.initiateCall` (webrtc.ts:158-204). Media is
captured first; on a video-capture failure an audio-only capture is retried;
if capture fails entirely the manager reports
`setState('idle', mediaErrorMsg(err))` and returns without touching anything
else. On success the remote peer and type are recorded, state becomes
`calling` and the first `call-request` is sent (the 3 s resend timer and the
40 s timeout are not modelled). -/
def initiateCall (st : WRTCState) (pubkey : String) (t : WCallType)
    (capture : Except MediaError Unit) (captureAudioRetry : Except MediaError Unit) :
    WRTCState × List WEffect :=
  if st.callState ≠ .idle then (st, [])
  else
    let proceed := fun (t2 : WCallType) =>
      let st1 := { st with preStream := true, remotePubkey := some pubkey, callType := t2 }
      let out := setState st1 .calling none
      (out.1, out.2 ++ [WEffect.sendSignal pubkey "call-request"])
    match capture with
    | .ok _ => proceed t
    | .error err =>
        match t with
        | .video =>
            match captureAudioRetry with
            | .ok _ => proceed .audio
            | .error _ => setState st .idle (some (mediaErrorMsg err))
        | .audio => setState st .idle (some (mediaErrorMsg err))

/-- Embedding of `WebRTCManager.acceptCall` (webrtc.ts:206-229). The state
moves to `connecting` before capture; on a video-capture failure an
audio-only capture is retried; if capture fails entirely the manager runs
`cleanup(false)` and reports `setState('idle', mediaErrorMsg(err))`. On
success `call-accept` is sent and the answerer connection is built. -/
def acceptCall (st : WRTCState)
    (capture : Except MediaError Unit) (captureAudioRetry : Except MediaError Unit) :
    WRTCState × List WEffect :=
  match st.remotePubkey with
  | none => (st, [])
  | some peer =>
      if st.callState = .ringing then
        let out1 := setState st .connecting none
        let continueWith := fun (st2 : WRTCState) =>
          let out2 := startWebRTC { st2 with preStream := true } false
          (out2.1, out1.2 ++ [WEffect.sendSignal peer "call-accept"] ++ out2.2)
        let fail := fun (err : MediaError) =>
          let out2 := cleanup out1.1 false
          let out3 := setState out2.1 .idle (some (mediaErrorMsg err))
          (out3.1, out1.2 ++ out2.2 ++ out3.2)
        match capture with
        | .ok _ => continueWith out1.1
        | .error err =>
            match st.callType with
            | .video =>
                match captureAudioRetry with
                | .ok _ => continueWith { out1.1 with callType := .audio }
                | .error _ => fail err
            | .audio => fail err
      else (st, [])

/-! ### Concrete trace for the queued-candidate flush
The initiator flow of `WebRTCManager`: start a call, receive `call-accept`,
then receive a `webrtc-ice` candidate before the `webrtc-answer`. -/

/-- After `initiateCall` succeeds: state `calling`, remote peer tracked. -/
def c4AfterInitiate : WRTCState :=
  (initiateCall initialWRTCState "peer" .audio (.ok ()) (.ok ())).1

/-- After the peer accepts: the connection exists, the offer was sent, no
remote description yet. -/
def c4AfterAccept : WRTCState :=
  (handleSignal c4AfterInitiate "peer" .callAccept).1

/-- A `webrtc-ice` candidate arrives before the answer: it is queued. -/
def c4AfterIce : WRTCState :=
  (handleSignal c4AfterAccept "peer" (.ice 7)).1

/-- The `webrtc-answer` arrives: the remote description is set. -/
def c4AfterAnswer : WRTCState :=
  (handleSignal c4AfterIce "peer" (.answer "sdp")).1

/-- The peer hangs up after the answer: the session is cleaned up. -/
def c4AfterEnd : WRTCState :=
  (handleSignal c4AfterAnswer "peer" .callEnd).1

/-- A reachable ringing state: an inbound call-request from `caller` while idle. -/
def wRingingState : WRTCState :=
  (handleSignal initialWRTCState "caller" (.callRequest .audio)).1

/-- The decrypted `file-meta` payload used as failing input for the
attachment-meta handler. -/
def c9MetaPayload : RawPayload :=
  { msgType := some "file-meta"
    transferId := some "t1"
    fileName := some "doc.pdf"
    mimeType := some "application/pdf"
    size := some 12345
    totalChunks := some 3
    text := some "" }

/-! ## General lemmas about the embedding -/

theorem lookup_setKey_self (m : List (String × Nat)) (k : String) (v : Nat) :
    (setKey m k v).lookup k = some v := by
  induction m with
  | nil => simp [setKey, List.lookup]
  | cons hd t ih =>
      obtain ⟨k0, v0⟩ := hd
      by_cases hk : k0 = k
      · subst hk
        simp [setKey, List.lookup]
      · have hkk : (k0 == k) = false := by simp [hk]
        have hkk2 : (k == k0) = false := by simp [Ne.symm hk]
        simp [setKey, List.lookup, hkk, hkk2, ih]

theorem getAttempts_scheduleReconnect (st : ClientState) (url : String) :
    getAttempts (scheduleReconnect st url).1 url = getAttempts st url + 1 := by
  simp [getAttempts, scheduleReconnect, lookup_setKey_self]

theorem scheduleReconnect_delay (st : ClientState) (url : String) :
    (scheduleReconnect st url).2 = backoffDelay (getAttempts st url) := rfl

theorem consecutiveDelays_formula (n : Nat) :
    ∀ st url k, getAttempts st url = k →
      (consecutiveDelays st url n).2 = (List.range n).map (fun j => backoffDelay (k + j)) := by
  induction n with
  | zero => intro st url k _; simp [consecutiveDelays]
  | succ n ih =>
      intro st url k hk
      have hstep : getAttempts (scheduleReconnect st url).1 url = k + 1 := by
        rw [getAttempts_scheduleReconnect, hk]
      simp only [consecutiveDelays, scheduleReconnect_delay, hk,
        ih (scheduleReconnect st url).1 url (k + 1) hstep]
      rw [List.range_succ_eq_map]
      simp only [List.map_cons, List.map_map]
      congr 1
      refine List.map_congr_left fun j _ => ?_
      simp only [Function.comp_apply]
      congr 1
      omega

theorem backoffDelay_le_cap (a : Nat) : backoffDelay a ≤ 60000 :=
  min_le_right _ _

theorem backoffDelay_strict (a : Nat) (h : backoffDelay a < 60000) :
    backoffDelay a < backoffDelay (a + 1) := by
  have hx : 3000 * 2 ^ a < 60000 := by
    rcases le_or_lt 60000 (3000 * 2 ^ a) with hle | hlt
    · exact absurd h (by simp [backoffDelay, Nat.min_eq_right hle])
    · exact hlt
  have h1 : backoffDelay a = 3000 * 2 ^ a := Nat.min_eq_left hx.le
  have h2 : 3000 * 2 ^ a < 3000 * 2 ^ (a + 1) := by
    have hpos : 0 < 2 ^ a := Nat.two_pow_pos a
    rw [pow_succ]
    nlinarith
  rw [h1]
  exact lt_min h2 hx

theorem contains_eq_true_iff (l : List String) (a : String) :
    l.contains a = true ↔ a ∈ l := by
  simp [List.contains]

theorem handleRelayMessage_seen (st : ClientState) (ev : NostrEvent)
    (h : ev.id ∈ st.seenEvents) : handleRelayMessage st ev = (st, none) := by
  unfold handleRelayMessage
  rw [if_pos ((contains_eq_true_iff _ _).mpr h)]

theorem handleRelayMessage_new (st : ClientState) (ev : NostrEvent)
    (h : ev.id ∉ st.seenEvents) :
    handleRelayMessage st ev
      = ({ st with seenEvents := ev.id :: st.seenEvents }, dispatchFor ev.kind) := by
  unfold handleRelayMessage
  rw [if_neg fun hc => h ((contains_eq_true_iff _ _).mp hc)]

theorem processDeliveries_cons (st : ClientState) (ev : NostrEvent)
    (evs : List NostrEvent) :
    processDeliveries st (ev :: evs)
      = ((processDeliveries (handleRelayMessage st ev).1 evs).1,
         (ev.id, (handleRelayMessage st ev).2)
           :: (processDeliveries (handleRelayMessage st ev).1 evs).2) := rfl

theorem dispatchCount_cons (x : String × Option Dispatch)
    (xs : List (String × Option Dispatch)) (i : String) :
    dispatchCount (x :: xs) i
      = (if (x.1 == i && x.2.isSome) = true then 1 else 0) + dispatchCount xs i := by
  by_cases h : (x.1 == i && x.2.isSome) = true
  · simp [dispatchCount, List.filter_cons, h, Nat.add_comm]
  · simp [dispatchCount, List.filter_cons, h]

theorem seen_mem_handleRelayMessage (st : ClientState) (ev : NostrEvent)
    (i : String) (h : i ∈ st.seenEvents) :
    i ∈ (handleRelayMessage st ev).1.seenEvents := by
  unfold handleRelayMessage
  split
  · exact h
  · exact List.mem_cons_of_mem _ h

theorem dispatchCount_zero_of_seen (evs : List NostrEvent) :
    ∀ st i, i ∈ st.seenEvents →
      dispatchCount (processDeliveries st evs).2 i = 0 := by
  induction evs with
  | nil => intro st i _; simp [processDeliveries, dispatchCount]
  | cons ev rest ih =>
      intro st i hi
      by_cases hev : ev.id = i
      · have hmsg : handleRelayMessage st ev = (st, none) :=
          handleRelayMessage_seen st ev (hev ▸ hi)
        rw [processDeliveries_cons, hmsg, dispatchCount_cons]
        simpa using ih st i hi
      · have hcond : ((ev.id, (handleRelayMessage st ev).2).1 == i &&
            (ev.id, (handleRelayMessage st ev).2).2.isSome) = false := by
          simp [hev]
        rw [processDeliveries_cons, dispatchCount_cons, hcond]
        simpa using ih (handleRelayMessage st ev).1 i
          (seen_mem_handleRelayMessage st ev i hi)

theorem dispatchCount_le_one (evs : List NostrEvent) :
    ∀ st i, dispatchCount (processDeliveries st evs).2 i ≤ 1 := by
  induction evs with
  | nil => intro st i; simp [processDeliveries, dispatchCount]
  | cons ev rest ih =>
      intro st i
      by_cases hi : i ∈ st.seenEvents
      · rw [dispatchCount_zero_of_seen (ev :: rest) st i hi]
        omega
      · rw [processDeliveries_cons, dispatchCount_cons]
        by_cases hev : ev.id = i
        · have hmsg : handleRelayMessage st ev
              = ({ st with seenEvents := ev.id :: st.seenEvents }, dispatchFor ev.kind) :=
            handleRelayMessage_new st ev (hev ▸ hi)
          have hrest : dispatchCount
              (processDeliveries (handleRelayMessage st ev).1 rest).2 i = 0 := by
            refine dispatchCount_zero_of_seen rest _ i ?_
            rw [hmsg, hev]
            exact List.mem_cons_self i _
          rw [hrest]
          split <;> omega
        · have hcond : ((ev.id, (handleRelayMessage st ev).2).1 == i &&
              (ev.id, (handleRelayMessage st ev).2).2.isSome) = false := by
            simp [hev]
          rw [hcond]
          simpa using ih (handleRelayMessage st ev).1 i

/-! ### Lemmas about the transfer store -/

theorem find?_putRow (rows : List TransferRow) (row : TransferRow) (tid : String) :
    (putRow rows row).find? (fun r => r.transferId == tid)
      = if row.transferId = tid then some row
        else rows.find? (fun r => r.transferId == tid) := by
  induction rows with
  | nil =>
      by_cases h : row.transferId = tid
      · rw [if_pos h]
        simp [putRow, List.find?, h]
      · rw [if_neg h]
        have hb : (row.transferId == tid) = false := by simp [h]
        simp [putRow, List.find?, hb]
  | cons r rest ih =>
      by_cases hr : r.transferId = row.transferId
      · have hput : putRow (r :: rest) row = row :: rest := by
          simp [putRow, hr]
        rw [hput]
        by_cases h : row.transferId = tid
        · rw [List.find?_cons_of_pos _ (by simp [h]), if_pos h]
        · rw [List.find?_cons_of_neg _ (by simp [h]), if_neg h,
            List.find?_cons_of_neg _ (by simp [hr, h])]
      · have hput : putRow (r :: rest) row = r :: putRow rest row := by
          simp [putRow, hr]
        rw [hput]
        by_cases h2 : r.transferId = tid
        · have hrowne : ¬ row.transferId = tid := fun hc => hr (h2.trans hc.symm)
          rw [List.find?_cons_of_pos _ (by simp [h2]), if_neg hrowne,
            List.find?_cons_of_pos _ (by simp [h2])]
        · rw [List.find?_cons_of_neg _ (by simp [h2]), ih]
          by_cases h : row.transferId = tid
          · rw [if_pos h, if_pos h]
          · rw [if_neg h, if_neg h, List.find?_cons_of_neg _ (by simp [h2])]

theorem getTransfer_putTransfer (s : ChunkStore) (row : TransferRow) (tid : String) :
    getTransfer (putTransfer s row) tid
      = if row.transferId = tid then some row else getTransfer s tid :=
  find?_putRow s.transfers row tid

theorem getTransfer_some_id {s : ChunkStore} {tid : String} {r : TransferRow}
    (h : getTransfer s tid = some r) : r.transferId = tid := by
  have := List.find?_some h
  simpa using this

theorem chunkKeysOf_putTransfer (s : ChunkStore) (row : TransferRow) (t : String) :
    chunkKeysOf (putTransfer s row) t = chunkKeysOf s t := rfl

theorem chunkKeysOf_ensureTransfer (s : ChunkStore) (m : TransferMeta) (t : String) :
    chunkKeysOf (ensureTransfer s m) t = chunkKeysOf s t := rfl

theorem getTransfer_ensureTransfer (s : ChunkStore) (m : TransferMeta) (t : String) :
    getTransfer (ensureTransfer s m) t
      = if m.transferId = t then
          some { transferId := m.transferId
                 fileName := m.fileName
                 mimeType := m.mimeType
                 fileType := m.fileType
                 size := m.size
                 totalChunks := m.totalChunks
                 receivedChunks :=
                   match getTransfer s m.transferId with
                   | some e => e.receivedChunks
                   | none => m.receivedChunks.getD 0
                 text := m.text }
        else getTransfer s t := by
  unfold ensureTransfer
  rw [getTransfer_putTransfer]

theorem chunkKeysOf_cons (s : ChunkStore) (tid : String) (i : Nat) (d t : String) :
    chunkKeysOf { s with chunks := ((tid, i), d) :: s.chunks } t
      = if tid = t then i :: chunkKeysOf s t else chunkKeysOf s t := by
  by_cases h : tid = t <;> simp [chunkKeysOf, List.filter_cons, h]

theorem hasChunk_iff_mem (s : ChunkStore) (tid : String) (i : Nat) :
    hasChunk s tid i = true ↔ i ∈ chunkKeysOf s tid := by
  simp only [hasChunk, chunkKeysOf, List.any_eq_true, List.mem_map, List.mem_filter,
    Bool.and_eq_true, beq_iff_eq]
  constructor
  · rintro ⟨c, hc, h1, h2⟩
    exact ⟨c, ⟨hc, by simp [h1]⟩, h2⟩
  · rintro ⟨c, ⟨hc, h1⟩, h2⟩
    exact ⟨c, hc, by simpa using h1, h2⟩

theorem storeChunk_dup (s : ChunkStore) (tid : String) (i T : Nat) (d : String)
    (h : hasChunk s tid i = true) : storeChunk s tid i T d = s := by
  simp [storeChunk, h]

theorem storeChunk_eq (s : ChunkStore) (tid : String) (i T : Nat) (d : String)
    (h : hasChunk s tid i = false) :
    storeChunk s tid i T d
      = match getTransfer s tid with
        | some r =>
            putTransfer { s with chunks := ((tid, i), d) :: s.chunks }
              { r with receivedChunks := min r.totalChunks (r.receivedChunks + 1) }
        | none =>
            putTransfer { s with chunks := ((tid, i), d) :: s.chunks }
              { transferId := tid
                fileName := "file"
                mimeType := "application/octet-stream"
                fileType := "file"
                size := 0
                totalChunks := T
                receivedChunks := 1
                text := none } := by
  unfold storeChunk
  rw [if_neg (by simp [h])]
  rfl

theorem hasChunk_storeChunk_self (s : ChunkStore) (tid : String) (i T : Nat)
    (d : String) : hasChunk (storeChunk s tid i T d) tid i = true := by
  by_cases h : hasChunk s tid i
  · rw [storeChunk_dup s tid i T d h]
    exact h
  · rw [storeChunk_eq s tid i T d (by simpa using h)]
    rcases hg : getTransfer s tid with _ | r <;>
      simp [hg, putTransfer, hasChunk]

theorem nodup_bounded_length (l : List Nat) (T : Nat) (hnd : l.Nodup)
    (hb : ∀ i ∈ l, i < T) : l.length ≤ T := by
  classical
  have h1 : l.toFinset ⊆ Finset.range T := fun x hx =>
    Finset.mem_range.mpr (hb x (List.mem_toFinset.mp hx))
  have h2 := Finset.card_le_card h1
  rwa [List.toFinset_card_of_nodup hnd, Finset.card_range] at h2

theorem storeInv_empty (t : String) (T : Nat) : StoreInv t T emptyStore := by
  refine ⟨by simp [chunkKeysOf, emptyStore], by simp [chunkKeysOf, emptyStore], ?_, ?_⟩
  · intro r hr
    simp [getTransfer, emptyStore] at hr
  · intro _
    simp [chunkKeysOf, emptyStore]

theorem storeInv_applyOp (t : String) (T : Nat) (s : ChunkStore) (op : StoreOp)
    (hInv : StoreInv t T s) (hwf : opWF t T op = true) :
    StoreInv t T (applyOp s op) := by
  obtain ⟨hnd, hlt, hsome, hnone⟩ := hInv
  cases op with
  | meta m =>
      simp only [applyOp]
      by_cases hm : m.transferId = t
      · have hwf2 : m.totalChunks = T ∧ m.receivedChunks = none := by
          simp only [opWF, hm, beq_self_eq_true, Bool.not_true, Bool.false_or,
            Bool.and_eq_true, beq_iff_eq, Option.isNone_iff_eq_none] at hwf
          exact hwf
        refine ⟨by rw [chunkKeysOf_ensureTransfer]; exact hnd,
                by rw [chunkKeysOf_ensureTransfer]; exact hlt, ?_, ?_⟩
        · intro r hr
          rw [getTransfer_ensureTransfer, if_pos hm] at hr
          obtain rfl := Option.some_inj.mp hr
          rw [chunkKeysOf_ensureTransfer]
          refine ⟨hwf2.1, ?_⟩
          simp only [hm]
          rcases hg : getTransfer s t with _ | e
          · simp only [hg, hwf2.2, Option.getD_none]
            rw [hnone hg]
            rfl
          · simp only [hg]
            exact (hsome e hg).2
        · intro hr
          rw [getTransfer_ensureTransfer, if_pos hm] at hr
          exact absurd hr (by simp)
      · refine ⟨by rw [chunkKeysOf_ensureTransfer]; exact hnd,
                by rw [chunkKeysOf_ensureTransfer]; exact hlt, ?_, ?_⟩
        · intro r hr
          rw [getTransfer_ensureTransfer, if_neg hm] at hr
          rw [chunkKeysOf_ensureTransfer]
          exact hsome r hr
        · intro hr
          rw [getTransfer_ensureTransfer, if_neg hm] at hr
          rw [chunkKeysOf_ensureTransfer]
          exact hnone hr
  | chunk tid i T2 d =>
      simp only [applyOp]
      by_cases hdup : hasChunk s tid i
      · rw [storeChunk_dup s tid i T2 d hdup]
        exact ⟨hnd, hlt, hsome, hnone⟩
      · have hdupf : hasChunk s tid i = false := by simpa using hdup
        rw [storeChunk_eq s tid i T2 d hdupf]
        by_cases htid : tid = t
        · subst htid
          have hwf2 : T2 = T ∧ i < T := by
            simp only [opWF, beq_self_eq_true, Bool.not_true, Bool.false_or,
              Bool.and_eq_true, beq_iff_eq, decide_eq_true_eq] at hwf
            exact hwf
          have hnotmem : i ∉ chunkKeysOf s tid := fun hmem => by
            have hcontra := (hasChunk_iff_mem s tid i).mpr hmem
            rw [hdupf] at hcontra
            exact Bool.false_ne_true hcontra
          have hnd2 : (i :: chunkKeysOf s tid).Nodup :=
            List.nodup_cons.mpr (And.intro hnotmem hnd)
          have hlt2 : ∀ j ∈ i :: chunkKeysOf s tid, j < T := by
            intro j hj
            rcases List.mem_cons.mp hj with rfl | hj2
            · exact hwf2.2
            · exact hlt j hj2
          have hlen2 : (i :: chunkKeysOf s tid).length ≤ T :=
            nodup_bounded_length _ T hnd2 hlt2
          rcases hg : getTransfer s tid with _ | r
          · simp only [hg]
            have hkeys0 : chunkKeysOf s tid = [] := hnone hg
            refine ⟨?_, ?_, ?_, ?_⟩
            · rw [chunkKeysOf_putTransfer, chunkKeysOf_cons, if_pos rfl]
              exact hnd2
            · rw [chunkKeysOf_putTransfer, chunkKeysOf_cons, if_pos rfl]
              exact hlt2
            · intro r2 hr2
              rw [getTransfer_putTransfer, if_pos rfl] at hr2
              obtain rfl := Option.some_inj.mp hr2
              refine ⟨hwf2.1, ?_⟩
              rw [chunkKeysOf_putTransfer, chunkKeysOf_cons, if_pos rfl, hkeys0]
              rfl
            · intro hr2
              rw [getTransfer_putTransfer, if_pos rfl] at hr2
              exact absurd hr2 (by simp)
          · simp only [hg]
            have hrid : r.transferId = tid := getTransfer_some_id hg
            have hrt := hsome r hg
            refine ⟨?_, ?_, ?_, ?_⟩
            · rw [chunkKeysOf_putTransfer, chunkKeysOf_cons, if_pos rfl]
              exact hnd2
            · rw [chunkKeysOf_putTransfer, chunkKeysOf_cons, if_pos rfl]
              exact hlt2
            · intro r2 hr2
              rw [getTransfer_putTransfer, if_pos hrid] at hr2
              obtain rfl := Option.some_inj.mp hr2
              refine ⟨hrt.1, ?_⟩
              rw [chunkKeysOf_putTransfer, chunkKeysOf_cons, if_pos rfl]
              have hle : (chunkKeysOf s tid).length + 1 ≤ T := by
                simpa using hlen2
              show min r.totalChunks (r.receivedChunks + 1) = (i :: chunkKeysOf s tid).length
              rw [hrt.1, hrt.2, List.length_cons]
              exact Nat.min_eq_right hle
            · intro hr2
              rw [getTransfer_putTransfer, if_pos hrid] at hr2
              exact absurd hr2 (by simp)
        · rcases hg : getTransfer s tid with _ | r
          · simp only [hg]
            refine ⟨?_, ?_, ?_, ?_⟩
            · rw [chunkKeysOf_putTransfer, chunkKeysOf_cons, if_neg htid]
              exact hnd
            · rw [chunkKeysOf_putTransfer, chunkKeysOf_cons, if_neg htid]
              exact hlt
            · intro r2 hr2
              rw [getTransfer_putTransfer, if_neg htid] at hr2
              rw [chunkKeysOf_putTransfer, chunkKeysOf_cons, if_neg htid]
              exact hsome r2 hr2
            · intro hr2
              rw [getTransfer_putTransfer, if_neg htid] at hr2
              rw [chunkKeysOf_putTransfer, chunkKeysOf_cons, if_neg htid]
              exact hnone hr2
          · simp only [hg]
            have hrid : r.transferId = tid := getTransfer_some_id hg
            have hne : ¬ r.transferId = t := fun hc => htid (hrid.symm.trans hc)
            refine ⟨?_, ?_, ?_, ?_⟩
            · rw [chunkKeysOf_putTransfer, chunkKeysOf_cons, if_neg htid]
              exact hnd
            · rw [chunkKeysOf_putTransfer, chunkKeysOf_cons, if_neg htid]
              exact hlt
            · intro r2 hr2
              rw [getTransfer_putTransfer, if_neg hne] at hr2
              rw [chunkKeysOf_putTransfer, chunkKeysOf_cons, if_neg htid]
              exact hsome r2 hr2
            · intro hr2
              rw [getTransfer_putTransfer, if_neg hne] at hr2
              rw [chunkKeysOf_putTransfer, chunkKeysOf_cons, if_neg htid]
              exact hnone hr2

theorem storeInv_applyOps (t : String) (T : Nat) (ops : List StoreOp) :
    ∀ s, StoreInv t T s → (∀ op ∈ ops, opWF t T op = true) →
      StoreInv t T (applyOps s ops) := by
  induction ops with
  | nil => intro s hInv _; exact hInv
  | cons op rest ih =>
      intro s hInv hwf
      exact ih (applyOp s op)
        (storeInv_applyOp t T s op hInv (hwf op (List.mem_cons_self _ _)))
        (fun o ho => hwf o (List.mem_cons_of_mem _ ho))

theorem receivedOf_eq_length (t : String) (T : Nat) (s : ChunkStore)
    (hInv : StoreInv t T s) : receivedOf s t = (chunkKeysOf s t).length := by
  obtain ⟨_, _, hsome, hnone⟩ := hInv
  unfold receivedOf
  rcases hg : getTransfer s t with _ | r
  · rw [hnone hg]
    rfl
  · exact (hsome r hg).2

theorem receivedOf_le_total (t : String) (T : Nat) (s : ChunkStore)
    (hInv : StoreInv t T s) : receivedOf s t ≤ T := by
  rw [receivedOf_eq_length t T s hInv]
  exact nodup_bounded_length _ T hInv.1 hInv.2.1

theorem chunkKeys_length_applyOp (t : String) (s : ChunkStore) (op : StoreOp) :
    (chunkKeysOf s t).length ≤ (chunkKeysOf (applyOp s op) t).length := by
  cases op with
  | meta m =>
      simp only [applyOp]
      rw [chunkKeysOf_ensureTransfer]
  | chunk tid i T2 d =>
      simp only [applyOp]
      by_cases hdup : hasChunk s tid i
      · rw [storeChunk_dup s tid i T2 d hdup]
      · rw [storeChunk_eq s tid i T2 d (by simpa using hdup)]
        rcases hg : getTransfer s tid with _ | r <;>
        · simp only [hg]
          rw [chunkKeysOf_putTransfer, chunkKeysOf_cons]
          by_cases htid : tid = t
          · rw [if_pos htid]
            simp
          · rw [if_neg htid]

theorem receivedOf_mono_applyOps (t : String) (T : Nat) (suf : List StoreOp) :
    ∀ s, StoreInv t T s → (∀ op ∈ suf, opWF t T op = true) →
      receivedOf s t ≤ receivedOf (applyOps s suf) t := by
  induction suf with
  | nil => intro s _ _; exact le_refl _
  | cons op rest ih =>
      intro s hInv hwf
      have hInv2 := storeInv_applyOp t T s op hInv (hwf op (List.mem_cons_self _ _))
      calc receivedOf s t
          = (chunkKeysOf s t).length := receivedOf_eq_length t T s hInv
        _ ≤ (chunkKeysOf (applyOp s op) t).length := chunkKeys_length_applyOp t s op
        _ = receivedOf (applyOp s op) t := (receivedOf_eq_length t T _ hInv2).symm
        _ ≤ receivedOf (applyOps (applyOp s op) rest) t :=
            ih (applyOp s op) hInv2 (fun o ho => hwf o (List.mem_cons_of_mem _ ho))

/-! ## Claim theorems -/

/-- C1 counterexample: a relay event of an unhandled kind (here kind 7)
refutes the claim as stated — its first delivery adds the id to the global
seen-set but dispatches no handler invocation at all, not exactly one. -/
theorem C1_counterexample :
    (handleRelayMessage initialClientState ⟨"e7", "pk", 0, 7, [], "c", "s"⟩).1.seenEvents
        = ["e7"] ∧
    (handleRelayMessage initialClientState ⟨"e7", "pk", 0, 7, [], "c", "s"⟩).2 = none := by
  constructor <;> rfl

/-- C1 (amended): the client processes each event id at most once
process-wide. The first delivery of an id not yet seen adds it to the global
seen-set and dispatches at most one handler invocation — exactly one when
the event kind is one of the handled kinds 4, 0, 40, 42 — and every later
delivery of an event with that id is ignored with no state change; over any
delivery sequence, at most one delivery of a given id is dispatched. -/
theorem C1_theorem (st : ClientState) (ev : NostrEvent) (evs : List NostrEvent)
    (i : String) :
    (ev.id ∉ st.seenEvents →
      (handleRelayMessage st ev).1.seenEvents = ev.id :: st.seenEvents ∧
      ((handleRelayMessage st ev).2.isSome = true ↔ handledKind ev.kind = true)) ∧
    (ev.id ∈ st.seenEvents → handleRelayMessage st ev = (st, none)) ∧
    dispatchCount (processDeliveries st evs).2 i ≤ 1 := by
  refine ⟨fun hnot => ?_, handleRelayMessage_seen st ev, dispatchCount_le_one evs st i⟩
  rw [handleRelayMessage_new st ev hnot]
  refine ⟨rfl, ?_⟩
  unfold dispatchFor handledKind
  by_cases h4 : ev.kind = 4 <;> by_cases h0 : ev.kind = 0 <;>
    by_cases h40 : ev.kind = 40 <;> by_cases h42 : ev.kind = 42 <;>
    simp [h4, h0, h40, h42]

/-- C1 witness: a kind-4 event delivered twice is dispatched at most once,
and the first delivery records its id. -/
theorem C1_theorem_witness :
    (handleRelayMessage initialClientState ⟨"a", "pk", 1, 4, [], "c", "s"⟩).1.seenEvents
        = ["a"] ∧
    dispatchCount (processDeliveries initialClientState
      [⟨"a", "pk", 1, 4, [], "c", "s"⟩, ⟨"a", "pk", 1, 4, [], "c", "s"⟩]).2 "a" ≤ 1 := by
  have h := C1_theorem initialClientState ⟨"a", "pk", 1, 4, [], "c", "s"⟩
    [⟨"a", "pk", 1, 4, [], "c", "s"⟩, ⟨"a", "pk", 1, 4, [], "c", "s"⟩] "a"
  exact ⟨(h.1 (by simp [initialClientState])).1, h.2.2⟩

/-- C5: an inbound call-request while the session is in any non-idle state is
auto-rejected: a `call-reject` is sent back to the requester and the whole
session state — in particular the tracked remote peer — is unchanged. -/
theorem C5_theorem (st : WRTCState) (source : String) (ct : WCallType)
    (h : st.callState ≠ .idle) :
    handleSignal st source (.callRequest ct)
      = (st, [.sendSignal source "call-reject"]) := by
  simp [handleSignal, h]

/-- C5 witness: while `calling` (after `initiateCall`), a second inbound
call-request from another peer is rejected and nothing changes. -/
theorem C5_theorem_witness :
    c4AfterInitiate.callState = .calling ∧
    handleSignal c4AfterInitiate "mallory" (.callRequest .video)
      = (c4AfterInitiate, [.sendSignal "mallory" "call-reject"]) :=
  ⟨by decide, C5_theorem c4AfterInitiate "mallory" .video (by decide)⟩

/-- C7: an outbound encrypted envelope (direct message or channel post) is
broadcast to exactly the relay links whose socket is open; when none is open
the operation fails with the no-connected-relays error and nothing is sent. -/
theorem C7_theorem (st : ClientState) (eid : String) :
    (openSockets st = [] →
      (sendEncryptedPayload st eid).result = .error "Нет подключённых релеев" ∧
      (sendEncryptedPayload st eid).actions = [.addSeen eid] ∧
      sendChannelMessage st eid = (.error "No connected relays", [])) ∧
    (openSockets st ≠ [] →
      (sendEncryptedPayload st eid).result = .ok eid ∧
      (sendEncryptedPayload st eid).actions
        = .addSeen eid :: (openSockets st).map (fun s => .wsSend s.1 eid) ∧
      sendChannelMessage st eid
        = (.ok eid, (openSockets st).map (fun s => .wsSend s.1 eid))) := by
  have hsock : openSockets { st with seenEvents := eid :: st.seenEvents } = openSockets st := rfl
  constructor
  · intro hempty
    refine ⟨?_, ?_, ?_⟩ <;>
      simp [sendEncryptedPayload, sendChannelMessage, hsock, hempty]
  · intro hne
    have hem : (openSockets st).isEmpty = false := by
      simpa [List.isEmpty_iff] using hne
    refine ⟨?_, ?_, ?_⟩ <;>
      simp [sendEncryptedPayload, sendChannelMessage, hsock, hem]

/-- C7 witness: with two open sockets out of three the event goes to both;
with no open socket both send operations fail without sending. -/
theorem C7_theorem_witness :
    (sendEncryptedPayload ⟨[], [("a", .opened), ("b", .closed), ("c", .opened)], []⟩ "x").actions
      = [.addSeen "x", .wsSend "a" "x", .wsSend "c" "x"] ∧
    (sendEncryptedPayload ⟨[], [("b", .closed)], []⟩ "x").result
      = .error "Нет подключённых релеев" ∧
    sendChannelMessage ⟨[], [("b", .closed)], []⟩ "x"
      = (.error "No connected relays", []) := by
  have h1 := C7_theorem ⟨[], [("a", .opened), ("b", .closed), ("c", .opened)], []⟩ "x"
  have h2 := C7_theorem ⟨[], [("b", .closed)], []⟩ "x"
  refine ⟨?_, (h2.1 (by decide)).1, (h2.1 (by decide)).2.2⟩
  rw [(h1.2 (by decide)).2.1]
  rfl

/-- C8: the reconnect delay scheduled after the a-th consecutive failure of
an endpoint is `min(3000 * 2 ^ a, 60000)` — doubling from the 3 s base,
capped at 60 s, strictly increasing until the cap — and one successful open
resets the attempt counter so the next scheduled delay is 3000 ms again. -/
theorem C8_theorem (st : ClientState) (url : String) (n a : Nat)
    (h0 : getAttempts st url = 0) :
    (consecutiveDelays st url n).2 = (List.range n).map backoffDelay ∧
    backoffDelay a ≤ 60000 ∧
    (backoffDelay a < 60000 → backoffDelay a < backoffDelay (a + 1)) ∧
    getAttempts (relayOpened st url) url = 0 ∧
    (scheduleReconnect (relayOpened st url) url).2 = 3000 := by
  have hreset : getAttempts (relayOpened st url) url = 0 := by
    simp [relayOpened, getAttempts, lookup_setKey_self]
  refine ⟨?_, backoffDelay_le_cap a, backoffDelay_strict a, hreset, ?_⟩
  · rw [consecutiveDelays_formula n st url 0 h0]
    exact List.map_congr_left fun j _ => by simp
  · rw [scheduleReconnect_delay, hreset]
    rfl

/-- C8 witness: eight consecutive failures from a fresh endpoint produce the
delays 3 s, 6 s, 12 s, 24 s, 48 s, 60 s, 60 s, 60 s; a success resets the
next delay to 3 s. -/
theorem C8_theorem_witness :
    (consecutiveDelays initialClientState "wss://r" 8).2
      = (List.range 8).map backoffDelay ∧
    (scheduleReconnect (relayOpened initialClientState "wss://r") "wss://r").2 = 3000 ∧
    backoffDelay 4 < backoffDelay 5 := by
  have h := C8_theorem initialClientState "wss://r" 8 4 (by decide)
  exact ⟨h.1, h.2.2.2.2, h.2.2.1 (by decide)⟩

/-- C10: before an outbound direct-message event is broadcast, its id is
added to the global seen-set (the first action precedes the socket sends);
afterwards any relay echo of that event is ignored — no state change and no
handler dispatch — and on success the sender observes the event only through
the returned id. -/
theorem C10_theorem (st : ClientState) (eid : String) (ev : NostrEvent)
    (hid : ev.id = eid) :
    (sendEncryptedPayload st eid).actions.head? = some (.addSeen eid) ∧
    (∀ a ∈ (sendEncryptedPayload st eid).actions.tail, ∃ u, a = .wsSend u eid) ∧
    eid ∈ (sendEncryptedPayload st eid).state.seenEvents ∧
    handleRelayMessage (sendEncryptedPayload st eid).state ev
      = ((sendEncryptedPayload st eid).state, none) ∧
    (openSockets st ≠ [] → (sendEncryptedPayload st eid).result = .ok eid) := by
  have hsock : openSockets { st with seenEvents := eid :: st.seenEvents }
      = openSockets st := rfl
  have hstate : (sendEncryptedPayload st eid).state
      = { st with seenEvents := eid :: st.seenEvents } := by
    by_cases hem : (openSockets st).isEmpty <;>
      simp [sendEncryptedPayload, hsock, hem]
  have hmem : eid ∈ (sendEncryptedPayload st eid).state.seenEvents := by
    rw [hstate]; exact List.mem_cons_self _ _
  refine ⟨?_, ?_, hmem, ?_, ?_⟩
  · by_cases hem : (openSockets st).isEmpty <;>
      simp [sendEncryptedPayload, hsock, hem]
  · intro a ha
    by_cases hem : (openSockets st).isEmpty
    · simp [sendEncryptedPayload, hsock, hem] at ha
    · simp only [sendEncryptedPayload, hsock, Bool.not_eq_true] at ha hem
      simp only [hem, Bool.false_eq_true, if_false, List.tail_cons, List.mem_map] at ha
      obtain ⟨s, _, rfl⟩ := ha
      exact ⟨s.1, rfl⟩
  · exact handleRelayMessage_seen _ ev (by rw [hid]; exact hmem)
  · intro hne
    have hem : (openSockets st).isEmpty = false := by
      simpa [List.isEmpty_iff] using hne
    simp [sendEncryptedPayload, hsock, hem]

/-- C10 witness: after publishing event `m1` through one open relay, the echo
of `m1` from a relay is ignored and the send returned the id. -/
theorem C10_theorem_witness :
    (sendEncryptedPayload ⟨[], [("r", .opened)], []⟩ "m1").actions.head?
      = some (.addSeen "m1") ∧
    handleRelayMessage (sendEncryptedPayload ⟨[], [("r", .opened)], []⟩ "m1").state
        ⟨"m1", "pk", 5, 4, [], "c", "s"⟩
      = ((sendEncryptedPayload ⟨[], [("r", .opened)], []⟩ "m1").state, none) ∧
    (sendEncryptedPayload ⟨[], [("r", .opened)], []⟩ "m1").result = .ok "m1" := by
  have h := C10_theorem ⟨[], [("r", .opened)], []⟩ "m1" ⟨"m1", "pk", 5, 4, [], "c", "s"⟩ rfl
  exact ⟨h.1, h.2.2.2.1, h.2.2.2.2 (by decide)⟩

/-- C6: when media capture fails on `initiateCall` the session never leaves
`idle` and nothing is retained — the manager state is exactly as before, with
one `idle` notification carrying the classified reason; when capture fails on
`acceptCall` the session ends in `idle` with no peer connection, no streams,
no queued candidates and no tracked peer, no `call-accept` is sent, and the
reported reason is the classification of the device failure; the three
device-failure classes map to three distinct reasons. -/
theorem C6_theorem (s1 s2 : WRTCState) (pk peer : String) (err err2 : MediaError)
    (h1 : s1.callState = .idle)
    (h2 : s2.callState = .ringing) (h2p : s2.remotePubkey = some peer) :
    initiateCall s1 pk .audio (.error err) (.error err2)
      = (s1, [.stateChange .idle (some (mediaErrorMsg err))]) ∧
    initiateCall s1 pk .video (.error err) (.error err2)
      = (s1, [.stateChange .idle (some (mediaErrorMsg err))]) ∧
    (s2.callType = .audio →
      acceptCall s2 (.error err) (.error err2)
        = ({ s2 with
              callState := .idle
              pc := none
              remotePubkey := none
              iceCandidateQueue := []
              preStream := false
              localStream := false
              remoteStream := false },
           [.stateChange .connecting none, .stateChange .idle none,
            .stateChange .idle (some (mediaErrorMsg err))])) ∧
    (s2.callType = .video →
      acceptCall s2 (.error err) (.error err2)
        = ({ s2 with
              callState := .idle
              pc := none
              remotePubkey := none
              iceCandidateQueue := []
              preStream := false
              localStream := false
              remoteStream := false },
           [.stateChange .connecting none, .stateChange .idle none,
            .stateChange .idle (some (mediaErrorMsg err))])) ∧
    (mediaErrorMsg .notAllowed ≠ mediaErrorMsg .notFound ∧
     mediaErrorMsg .notAllowed ≠ mediaErrorMsg .notReadable ∧
     mediaErrorMsg .notFound ≠ mediaErrorMsg .notReadable) := by
  have hfix : ({ s1 with callState := .idle } : WRTCState) = s1 := by
    cases s1
    simp_all
  refine ⟨?_, ?_, fun hty => ?_, fun hty => ?_, by decide, by decide, by decide⟩
  · simp [initiateCall, h1, setState, hfix]
  · simp [initiateCall, h1, setState, hfix]
  · cases s2
    simp_all [acceptCall, setState, cleanup]
  · cases s2
    simp_all [acceptCall, setState, cleanup]

/-- C6 witness: capture denied while `idle` (initiate) and while `ringing`
(accept) both leave the session in `idle` with the classified reason. -/
theorem C6_theorem_witness :
    initiateCall initialWRTCState "bob" .audio (.error .notAllowed) (.error .notFound)
      = (initialWRTCState,
         [.stateChange .idle (some (mediaErrorMsg .notAllowed))]) ∧
    acceptCall wRingingState (.error .notAllowed) (.error .notFound)
      = ({ wRingingState with
            callState := .idle
            pc := none
            remotePubkey := none
            iceCandidateQueue := []
            preStream := false
            localStream := false
            remoteStream := false },
         [.stateChange .connecting none, .stateChange .idle none,
          .stateChange .idle (some (mediaErrorMsg .notAllowed))]) := by
  have h := C6_theorem initialWRTCState wRingingState "bob" "caller" .notAllowed .notFound
    rfl (by decide) (by decide)
  exact ⟨h.1, h.2.2.1 (by decide)⟩

/-- C4: in the initiator flow of `WebRTCManager`, an ICE candidate that
arrives after the peer connection exists but before the remote description is
queued, and when the `webrtc-answer` then sets the remote description the
queue is not flushed: the candidate is never applied to the peer connection
and is finally discarded by cleanup. The only flush runs at peer-connection
setup, before any remote description can exist. -/
theorem C4_code_bug :
    c4AfterIce.pc = some ⟨true, false, []⟩ ∧
    c4AfterIce.iceCandidateQueue = [7] ∧
    c4AfterAnswer.pc = some ⟨true, true, []⟩ ∧
    c4AfterAnswer.iceCandidateQueue = [7] ∧
    c4AfterEnd.pc = none ∧
    c4AfterEnd.iceCandidateQueue = [] := by
  refine ⟨rfl, rfl, rfl, rfl, rfl, rfl⟩

/-- C2: storing a chunk whose `(transferId, index)` pair is already stored is
a no-op — the whole store, hence `receivedChunks`, is unchanged by the second
store — and over any delivery sequence of metadata upserts and chunk stores
for a transfer with total `T` (chunk indices below `T`, duplicates and any
order allowed, operations on other transfers arbitrary), `receivedChunks` is
monotonically non-decreasing and never exceeds `T`. -/
theorem C2_theorem (t : String) (T : Nat) (s : ChunkStore) (tid : String)
    (i T1 T2 : Nat) (d1 d2 : String) (ops pre suf : List StoreOp)
    (hops : ∀ op ∈ ops, opWF t T op = true) (hsplit : ops = pre ++ suf) :
    storeChunk (storeChunk s tid i T1 d1) tid i T2 d2 = storeChunk s tid i T1 d1 ∧
    receivedOf (applyOps emptyStore pre) t ≤ receivedOf (applyOps emptyStore ops) t ∧
    receivedOf (applyOps emptyStore ops) t ≤ T := by
  have hInvPre : StoreInv t T (applyOps emptyStore pre) :=
    storeInv_applyOps t T pre emptyStore (storeInv_empty t T)
      (fun op ho => hops op (by rw [hsplit]; exact List.mem_append_left _ ho))
  have hInvAll : StoreInv t T (applyOps emptyStore ops) :=
    storeInv_applyOps t T ops emptyStore (storeInv_empty t T) hops
  refine ⟨storeChunk_dup _ _ _ _ _ (hasChunk_storeChunk_self s tid i T1 d1), ?_,
    receivedOf_le_total t T _ hInvAll⟩
  rw [hsplit]
  show receivedOf (applyOps emptyStore pre) t
      ≤ receivedOf ((pre ++ suf).foldl applyOp emptyStore) t
  rw [List.foldl_append]
  exact receivedOf_mono_applyOps t T suf (applyOps emptyStore pre) hInvPre
    (fun op ho => hops op (by rw [hsplit]; exact List.mem_append_right _ ho))

/-- C2 witness: transfer `t` with 2 chunks; chunk 0 delivered twice, then the
metadata, then chunk 1 — the counter moves 1, 1, 1, 2 and stays at or below 2. -/
theorem C2_theorem_witness :
    storeChunk (storeChunk emptyStore "t" 0 2 "a") "t" 0 2 "x"
      = storeChunk emptyStore "t" 0 2 "a" ∧
    receivedOf (applyOps emptyStore [.chunk "t" 0 2 "a", .chunk "t" 0 2 "a"]) "t"
      ≤ receivedOf (applyOps emptyStore
          ([.chunk "t" 0 2 "a", .chunk "t" 0 2 "a"]
            ++ [.meta ⟨"t", "f", "m", "file", 9, 2, some "", none⟩,
                .chunk "t" 1 2 "b"])) "t" ∧
    receivedOf (applyOps emptyStore
        ([.chunk "t" 0 2 "a", .chunk "t" 0 2 "a"]
          ++ [.meta ⟨"t", "f", "m", "file", 9, 2, some "", none⟩,
              .chunk "t" 1 2 "b"])) "t" ≤ 2 :=
  C2_theorem "t" 2 emptyStore "t" 0 2 2 "a" "x"
    ([.chunk "t" 0 2 "a", .chunk "t" 0 2 "a"]
      ++ [.meta ⟨"t", "f", "m", "file", 9, 2, some "", none⟩, .chunk "t" 1 2 "b"])
    [.chunk "t" 0 2 "a", .chunk "t" 0 2 "a"]
    [.meta ⟨"t", "f", "m", "file", 9, 2, some "", none⟩, .chunk "t" 1 2 "b"]
    (by decide) rfl

/-- C3: sending a 600 KiB (614400-byte) file with the 256 KiB chunk size
produces exactly one metadata envelope followed by three chunk envelopes of
262144, 262144 and 90112 bytes with indices 0, 1, 2; and for every arrival
order of the three chunks on the receiving side, the assembled-message event
fires exactly once, at the third distinct chunk. -/
theorem C3_theorem (l : List Nat) (h : l.Perm [0, 1, 2]) :
    sendAttachmentEnvelopes "t600" 614400
      = [Envelope.fileMeta "t600" 3 614400, Envelope.fileChunk "t600" 0 3 262144,
         Envelope.fileChunk "t600" 1 3 262144, Envelope.fileChunk "t600" 2 3 90112] ∧
    (processChunkArrivals store600AfterMeta (l.map mkChunk600)).2
      = [false, false, true] := by
  refine ⟨by decide, ?_⟩
  have hlen : l.length = 3 := by simpa using h.length_eq
  have hnd : l.Nodup := h.nodup_iff.mpr (by decide)
  rcases l with _ | ⟨x, l⟩
  · simp at hlen
  rcases l with _ | ⟨y, l⟩
  · simp at hlen
  rcases l with _ | ⟨z, l⟩
  · simp at hlen
  rcases l with _ | ⟨w, l⟩
  swap
  · simp at hlen
  have hx : x ∈ [0, 1, 2] := h.mem_iff.mp (by simp)
  have hy : y ∈ [0, 1, 2] := h.mem_iff.mp (by simp)
  have hz : z ∈ [0, 1, 2] := h.mem_iff.mp (by simp)
  simp only [List.mem_cons, List.not_mem_nil, or_false] at hx hy hz
  rcases hx with rfl | rfl | rfl <;> rcases hy with rfl | rfl | rfl <;>
    rcases hz with rfl | rfl | rfl
  all_goals first
    | (exfalso; simp_all; done)
    | decide

/-- C3 witness: chunks arriving in the order 2, 0, 1 fire the completion event
exactly at the third chunk. -/
theorem C3_theorem_witness :
    (processChunkArrivals store600AfterMeta ([2, 0, 1].map mkChunk600)).2
      = [false, false, true] :=
  (C3_theorem [2, 0, 1] (by decide)).2

/-- C9: on a decrypted `file-meta` payload with a transfer id, the handler
registers no Transfer at all and instead emits the raw decrypted JSON as a
plain-text DirectMessage: the unbound `fileType` identifier at
call-manager.ts:628 throws before `ensureTransfer` runs, the inner catch
swallows it, and control falls through to the plain-text fallback. -/
theorem C9_code_bug :
    handleDecryptedPayload emptyStore "ev1" "alice" "bob" "rawjson"
        (some c9MetaPayload)
      = (emptyStore, [.message "ev1" "alice" "bob" "rawjson" "text"]) ∧
    getTransfer (handleDecryptedPayload emptyStore "ev1" "alice" "bob" "rawjson"
        (some c9MetaPayload)).1 "t1" = none := by
  exact ⟨rfl, rfl⟩

end Quick
